import Mathlib

/-!
Shallow embedding of the signing / verification / certificate subsystem of the
rust-pay-wf repository (src/utils.rs, src/wechat/certs.rs, src/wechat/notify.rs,
src/wechat/client.rs, src/alipay/notify.rs).

External cryptographic and parsing primitives (openssl RSA operations, the
AES-256-GCM AEAD, MD5, base64, x509 parsing, serde_json parsing) come from
third-party crates, not from this repository; they are modelled as function
parameters (uninterpreted functions) that each embedded definition threads
through, exactly at the call sites where the Rust code invokes them.  All
control flow, string manipulation and table manipulation written in the
repository itself is embedded concretely and executably.
-/

namespace RustPay

/-- Model of serde_json Value: JSON trees with object fields kept as an
association list (serde object lookup is by key). -/
inductive Json where
  | null : Json
  | bool : Bool → Json
  | num : Int → Json
  | str : String → Json
  | arr : List Json → Json
  | obj : List (String × Json) → Json

/-- Field lookup in a JSON object field list (first binding wins, as in a map). -/
def lookupField : List (String × Json) → String → Option Json
  | [], _ => none
  | (k, v) :: rest, key => if k = key then some v else lookupField rest key

/-- serde_json Value::get(key): a field of an object, none on any other shape. -/
def Json.get : Json → String → Option Json
  | .obj fields, key => lookupField fields key
  | _, _ => none

/-- serde_json Value::as_str. -/
def Json.asStr : Json → Option String
  | .str s => some s
  | _ => none

/-- serde_json Value::as_array. -/
def Json.asArr : Json → Option (List Json)
  | .arr xs => some xs
  | _ => none

/-- The error variants of PayError (src/errors.rs) that the embedded code
distinguishes; payload messages are dropped. -/
inductive PayErr where
  | crypto : PayErr
  | json : PayErr
  | other : PayErr
deriving DecidableEq

/-! ## RetryExecutor: retry_async (src/utils.rs lines 73-93)

The Rust loop calls the operation, and on failure decrements the unsigned
attempt counter, returning the last error when the counter reaches zero,
otherwise sleeping for the current delay and doubling it with a 5000 ms cap.
The embedding returns, besides the final result, the number of invocations
performed and the list of sleep durations, so that the observable schedule is
part of the model.  The value none models the arithmetic underflow of
`attempts -= 1` when the counter is already zero (a panic in debug builds). -/

/-- delay = min(delay * 2, 5000), the update after each sleep. -/
def backoffNext (d : Nat) : Nat := min (d * 2) 5000

/-- The retry loop; arguments: attempts remaining, index of the next
invocation, current delay.  Returns (result, total invocations, sleeps). -/
def retryAux {E T : Type} (f : Nat → Except E T) :
    Nat → Nat → Nat → Option (Except E T × Nat × List Nat)
  | 0, i, _ =>
    match f i with
    | .ok v => some (.ok v, i + 1, [])
    | .error _ => none
  | 1, i, _ =>
    match f i with
    | .ok v => some (.ok v, i + 1, [])
    | .error e => some (.error e, i + 1, [])
  | a + 2, i, d =>
    match f i with
    | .ok v => some (.ok v, i + 1, [])
    | .error _ =>
      match retryAux f (a + 1) (i + 1) (backoffNext d) with
      | none => none
      | some (r, cnt, sleeps) => some (r, cnt, d :: sleeps)

/-- retry_async(attempts, f): the loop starts with a 200 ms delay.  The
operation is modelled as a function of the invocation index so that each
attempt may succeed or fail independently. -/
def retry_async {E T : Type} (attempts : Nat) (f : Nat → Except E T) :
    Option (Except E T × Nat × List Nat) :=
  retryAux f attempts 0 200

/-- The sleep schedule the loop produces: k sleeps starting from delay d,
doubling with the 5000 cap after each one. -/
def sleepSeq : Nat → Nat → List Nat
  | _, 0 => []
  | d, k + 1 => d :: sleepSeq (backoffNext d) k

/-- Closed form of the delay before the (i+1)-st retry. -/
def backoffDelay (i : Nat) : Nat := min (200 * 2 ^ i) 5000

/-! ## SymmetricCodec: aes_gcm_decrypt (src/utils.rs lines 49-72)

Byte strings are lists of byte values.  The structure of the Rust function:
length check on the key, cipher construction (which cannot fail after the
length check), Nonce::from_slice (which panics when the nonce is not 12
bytes, the GCM nonce size: modelled as none), base64 decoding of the
ciphertext, the AEAD decryption, and finally String::from_utf8 on the
plaintext.  All error returns collapse to one error kind, as in the source
where every failure becomes an anyhow error. -/

def aes_gcm_decrypt
    (b64 : String → Option (List Nat))
    (aead : List Nat → List Nat → List Nat → List Nat → Option (List Nat))
    (utf8Ok : List Nat → Bool)
    (key aad nonce : List Nat) (ciphertextB64 : String) :
    Option (Except Unit (List Nat)) :=
  if key.length ≠ 32 then some (.error ())
  else if nonce.length ≠ 12 then none
  else
    match b64 ciphertextB64 with
    | none => some (.error ())
    | some bytes =>
      match aead key nonce aad bytes with
      | none => some (.error ())
      | some plain => if utf8Ok plain then some (.ok plain) else some (.error ())

/-! ## Signer/Verifier: rsa_verify_sha256_pem (src/utils.rs lines 37-48)

parseKey models PKey::public_key_from_pem together with Verifier::new and
update (all of which propagate as errors); b64 models the strict base64
decode of the signature; rawVerify models Verifier::verify, which yields
false on a well-formed signature that does not match and an error on a
malformed signature container. -/

def rsa_verify_sha256_pem {K : Type}
    (parseKey : String → Except Unit K)
    (b64 : String → Except Unit (List Nat))
    (rawVerify : K → String → List Nat → Except Unit Bool)
    (publicKeyPem data signatureBase64 : String) : Except Unit Bool :=
  match parseKey publicKeyPem with
  | .error _ => .error ()
  | .ok k =>
    match b64 signatureBase64 with
    | .error _ => .error ()
    | .ok sig =>
      match rawVerify k data sig with
      | .error _ => .error ()
      | .ok b => .ok b

/-! ## CertificateIdentity: cert_sn_from_utf8 and root_cert_sn_from_utf8
(src/utils.rs lines 109-132 and 144-184)

parse models parse_x509_pem followed by Pem::parse_x509; a parsed
certificate exposes the issuer distinguished name as printed by the
x509_parser crate, the serial number, and the signature algorithm OID in
dotted-decimal form.  md5hex models format "{:x}" of md5::compute, the
lowercase-hex rendering of the 128-bit digest. -/

structure X509Cert where
  issuer : String
  serial : Nat
  sigAlgOid : String
deriving DecidableEq

/-- The issuer-name transformation: when the printed issuer does not start
with "CN" its attributes (separated by comma-space in the printed form) are
reversed and rejoined with a bare comma; otherwise the name is left as-is. -/
def certName (issuer : String) : String :=
  if issuer.startsWith "CN" then issuer
  else String.intercalate "," (issuer.splitOn ", ").reverse

/-- The fingerprint body: md5 hex of the transformed issuer name followed by
the serial number in decimal. -/
def certFingerprint (md5hex : String → String) (c : X509Cert) : String :=
  md5hex (certName c.issuer ++ Nat.repr c.serial)

/-- cert_sn_from_utf8: parse, then hash the reordered issuer plus the
decimal serial. -/
def cert_sn_from_utf8 (parse : String → Option X509Cert)
    (md5hex : String → String) (content : String) : Except Unit String :=
  match parse content with
  | none => .error ()
  | some c => .ok (certFingerprint md5hex c)

def certEnd : String := "-----END CERTIFICATE-----"

/-- The dotted-decimal OID family of RSA signature algorithms. -/
def rsaOidFamily : String := "1.2.840.113549.1.1"

/-- The loop body of root_cert_sn_from_utf8: walk the fragments obtained by
splitting on the END CERTIFICATE delimiter, re-append the delimiter, skip
fragments that fail to parse, skip certificates whose signature algorithm
OID is outside the RSA family, and accumulate fingerprints into sn with an
underscore between successive ones. -/
def rootSnFold (parse : String → Option X509Cert) (md5hex : String → String) :
    List String → String → Except Unit String
  | [], sn => .ok sn
  | c :: rest, sn =>
    let certData := c ++ certEnd
    match parse certData with
    | none => rootSnFold parse md5hex rest sn
    | some x =>
      if x.sigAlgOid.startsWith rsaOidFamily then
        match cert_sn_from_utf8 parse md5hex certData with
        | .error e => .error e
        | .ok fp =>
          rootSnFold parse md5hex rest (if sn = "" then sn ++ fp else sn ++ ("_" ++ fp))
      else rootSnFold parse md5hex rest sn

/-- root_cert_sn_from_utf8: run the fold over the split bundle starting from
the empty accumulator and fail when nothing survived. -/
def root_cert_sn_from_utf8 (parse : String → Option X509Cert)
    (md5hex : String → String) (content : String) : Except Unit String :=
  match rootSnFold parse md5hex (content.splitOn certEnd) "" with
  | .error e => .error e
  | .ok sn => if sn = "" then .error () else .ok sn

/-- Specification-side companion for the root fingerprint: the fingerprints
of exactly those fragments that parse as X.509 and carry an RSA-family
signature algorithm OID, in bundle order. -/
def fragmentFingerprints (parse : String → Option X509Cert)
    (md5hex : String → String) : List String → List String
  | [] => []
  | c :: rest =>
    match parse (c ++ certEnd) with
    | some x =>
      if x.sigAlgOid.startsWith rsaOidFamily then
        certFingerprint md5hex x :: fragmentFingerprints parse md5hex rest
      else fragmentFingerprints parse md5hex rest
    | none => fragmentFingerprints parse md5hex rest

/-- Joining a list of strings with a separator (the semantics of the join
used by the source for both the underscore join and the ampersand join). -/
def joinWith (sep : String) : List String → String
  | [] => ""
  | [x] => x
  | x :: y :: rest => x ++ sep ++ joinWith sep (y :: rest)

/-! ## CertificateStore: PlatformCerts::refresh (src/wechat/certs.rs lines 23-78)

The table is an association list from serial to public-key PEM, standing for
the HashMap behind the mutex.  decrypt models aes_gcm_decrypt applied to the
configured api_v3_key (arguments: key, associated data, nonce, ciphertext),
extract models extract_pubkey_from_cert, parse models serde_json parsing of
the response text, sign models rsa_sign_sha256_pem over the bootstrap
canonical string, and transport models the retried HTTP GET yielding the
response body text. -/

/-- HashMap::insert on the association-list table: replace an existing
binding for the key, else append a fresh one. -/
def insertTable : List (String × String) → String → String → List (String × String)
  | [], k, v => [(k, v)]
  | (k₀, v₀) :: rest, k, v =>
    if k₀ = k then (k, v) :: rest else (k₀, v₀) :: insertTable rest k v

/-- Processing of one entry of the data array: entries lacking serial_no or
encrypt_certificate are skipped; otherwise the ciphertext, nonce and
associated data strings (defaulting to empty) are decrypted, the public key
is extracted from the resulting PEM, and the pair is inserted.  Decrypt or
extraction failure aborts the whole refresh (the Rust question-mark). -/
def processCert (decrypt : String → String → String → String → Except Unit String)
    (extract : String → Except Unit String) (apiV3Key : String)
    (m : List (String × String)) (cert : Json) :
    Except Unit (List (String × String)) :=
  match cert.get "serial_no", cert.get "encrypt_certificate" with
  | some serial, some resource =>
    let cipher := ((resource.get "ciphertext").bind Json.asStr).getD ""
    let nonceR := ((resource.get "nonce").bind Json.asStr).getD ""
    let aad := ((resource.get "associated_data").bind Json.asStr).getD ""
    match decrypt apiV3Key aad nonceR cipher with
    | .error e => .error e
    | .ok pem =>
      match extract pem with
      | .error e => .error e
      | .ok pubPem => .ok (insertTable m (serial.asStr.getD "") pubPem)
  | _, _ => .ok m

/-- The loop over the data array; the table starts from the cleared (empty)
state.  On an entry failure the loop stops and the table keeps the entries
inserted so far. -/
def processCerts (decrypt : String → String → String → String → Except Unit String)
    (extract : String → Except Unit String) (apiV3Key : String) :
    List (String × String) → List Json → Except Unit Unit × List (String × String)
  | m, [] => (.ok (), m)
  | m, c :: rest =>
    match processCert decrypt extract apiV3Key m c with
    | .error _ => (.error (), m)
    | .ok m₁ => processCerts decrypt extract apiV3Key m₁ rest

/-- PlatformCerts::refresh, as a transformer of the serial-to-key table.
The first component is the Result, the second the table after the call. -/
def refresh (decrypt : String → String → String → String → Except Unit String)
    (extract : String → Except Unit String) (parse : String → Option Json)
    (apiV3Key : String) (sign : Except Unit String) (transport : Except Unit String)
    (old : List (String × String)) : Except Unit Unit × List (String × String) :=
  match sign with
  | .error _ => (.error (), old)
  | .ok _ =>
    match transport with
    | .error _ => (.error (), old)
    | .ok txt =>
      match parse txt with
      | none => (.error (), old)
      | some v =>
        match (v.get "data").bind Json.asArr with
        | none => (.ok (), old)
        | some arr => processCerts decrypt extract apiV3Key [] arr

/-- PlatformCerts::get_by_serial: a read of the current table. -/
def get_by_serial (m : List (String × String)) (serial : String) : Option String :=
  List.lookup serial m

/-! ## Canonical strings (src/wechat/client.rs lines 397-419, certs.rs line 34,
notify.rs line 37) -/

/-- The path component handed to the signer: parsed.path() plus, when a
query is present, a question mark and the raw query. -/
def pathWithQuery (path : String) (query : Option String) : String :=
  match query with
  | some q => path ++ "?" ++ q
  | none => path

/-- The body segment of the outbound canonical string: empty for GET,
otherwise the serialized JSON body text. -/
def outboundBodyStr (method : String) (bodyJson : String) : String :=
  if method = "GET" then "" else bodyJson

/-- The outbound fixed-field canonical string of sign_and_post. -/
def outboundSignStr (method path : String) (query : Option String)
    (ts nonce bodyJson : String) : String :=
  method ++ "\n" ++ pathWithQuery path query ++ "\n" ++ ts ++ "\n" ++ nonce ++ "\n"
    ++ outboundBodyStr method bodyJson ++ "\n"

/-- The inbound notification verification string of verify_and_decrypt. -/
def wechatNotifyMsg (ts nonce body : String) : String :=
  ts ++ "\n" ++ nonce ++ "\n" ++ body ++ "\n"

/-! ## WechatNotify::verify_and_decrypt (src/wechat/notify.rs lines 15-83)

getBySerial is the initial table read; refreshRes is the outcome of the one
on-miss refresh, yielding on success the table read after the refresh;
verify models rsa_verify_sha256_pem (public key, message, signature);
decrypt models aes_gcm_decrypt on the resource (key, aad, nonce,
ciphertext); parse models serde_json parsing.  The Bool component records
whether the resource decryption was invoked. -/

def vdAfterKey (verify : String → String → String → Except Unit Bool)
    (decrypt : String → String → String → String → Except Unit String)
    (parse : String → Option Json) (apiV3Key : String)
    (msg signature body : String) (pubPem : String) : Except PayErr Json × Bool :=
  if pubPem = "" then (.error .other, false)
  else
    match verify pubPem msg signature with
    | .error _ => (.error .crypto, false)
    | .ok false => (.error .other, false)
    | .ok true =>
      match parse body with
      | none => (.error .json, false)
      | some v =>
        match v.get "resource" with
        | none => (.ok v, false)
        | some resource =>
          let ad := ((resource.get "associated_data").bind Json.asStr).getD ""
          let nonceR := ((resource.get "nonce").bind Json.asStr).getD ""
          let ciphertext := ((resource.get "ciphertext").bind Json.asStr).getD ""
          match decrypt apiV3Key ad nonceR ciphertext with
          | .error _ => (.error .crypto, true)
          | .ok plain =>
            match parse plain with
            | none => (.error .json, true)
            | some pj => (.ok pj, true)

def verify_and_decrypt (getBySerial : String → Option String)
    (refreshRes : Except Unit (String → Option String))
    (verify : String → String → String → Except Unit Bool)
    (decrypt : String → String → String → String → Except Unit String)
    (parse : String → Option Json) (apiV3Key : String)
    (headers : List (String × String)) (body : String) : Except PayErr Json × Bool :=
  match getBySerial ((List.lookup "wechatpay-serial" headers).getD "") with
  | some p =>
    vdAfterKey verify decrypt parse apiV3Key
      (wechatNotifyMsg ((List.lookup "wechatpay-timestamp" headers).getD "")
        ((List.lookup "wechatpay-nonce" headers).getD "") body)
      ((List.lookup "wechatpay-signature" headers).getD "") body p
  | none =>
    match refreshRes with
    | .error _ => (.error .crypto, false)
    | .ok afterRefresh =>
      match afterRefresh ((List.lookup "wechatpay-serial" headers).getD "") with
      | none => (.error .other, false)
      | some p =>
        vdAfterKey verify decrypt parse apiV3Key
          (wechatNotifyMsg ((List.lookup "wechatpay-timestamp" headers).getD "")
            ((List.lookup "wechatpay-nonce" headers).getD "") body)
          ((List.lookup "wechatpay-signature" headers).getD "") body p

/-! ## AlipayNotify::verify_notify (src/alipay/notify.rs lines 37-113) -/

/-- The key ordering used for the canonical sorted string; Rust cmp on
String is byte-wise lexicographic over the UTF-8 encoding, which coincides
with the character-wise lexicographic order on the decoded text used by the
Lean String order. -/
def pairKeyLe (p q : String × String) : Prop := p.1 ≤ q.1

instance : DecidableRel pairKeyLe :=
  fun p q => inferInstanceAs (Decidable (p.1 ≤ q.1))

instance : IsTotal (String × String) pairKeyLe :=
  ⟨fun p q => le_total p.1 q.1⟩

instance : IsTrans (String × String) pairKeyLe :=
  ⟨fun _ _ _ h₁ h₂ => le_trans h₁ h₂⟩

/-- The filter dropping the sign and sign_type fields. -/
def alipayFilter (params : List (String × String)) : List (String × String) :=
  params.filter fun p => p.1 != "sign" && p.1 != "sign_type"

/-- The pre-sign canonical string: filtered pairs sorted by key, rendered
key=value (values untouched, no percent-encoding), joined with ampersands. -/
def presignContent (params : List (String × String)) : String :=
  joinWith "&" ((List.insertionSort pairKeyLe (alipayFilter params)).map
    fun p => p.1 ++ "=" ++ p.2)

structure AlipayNotifyData where
  app_id : String
  out_trade_no : String
  trade_no : String
  trade_status : String
  total_amount : String
  seller_id : Option String
  others : List (String × String)
deriving DecidableEq

/-- AlipayNotify::verify_notify over a parameter map given as a key-value
list (the iteration view of the form-encoded HashMap). -/
def verify_notify (rsaVerify : String → String → String → Except Unit Bool)
    (pubkey : String) (params : List (String × String)) :
    Except PayErr AlipayNotifyData :=
  match List.lookup "sign" params with
  | none => .error .other
  | some sign =>
    match rsaVerify pubkey (presignContent params) sign with
    | .error _ => .error .crypto
    | .ok false => .error .other
    | .ok true =>
      let trade_status := (List.lookup "trade_status" params).getD ""
      if trade_status = "TRADE_SUCCESS" ∨ trade_status = "TRADE_FINISHED" then
        .ok
          { app_id := (List.lookup "app_id" params).getD ""
            out_trade_no := (List.lookup "out_trade_no" params).getD ""
            trade_no := (List.lookup "trade_no" params).getD ""
            trade_status := trade_status
            total_amount := (List.lookup "total_amount" params).getD ""
            seller_id := List.lookup "seller_id" params
            others := alipayFilter params }
      else .error .other

/-! ## Shared helper lemmas -/

theorem str_data_empty : String.data "" = [] := rfl

theorem str_append_ne_empty {a : String} (b : String) (h : a ≠ "") : a ++ b ≠ "" := by
  intro hab
  apply h
  apply String.ext
  have hd := congrArg String.data hab
  rw [String.data_append, str_data_empty] at hd
  rw [str_data_empty]
  exact (List.append_eq_nil.mp hd).1

theorem str_append_empty (s : String) : s ++ "" = s := by
  apply String.ext
  rw [String.data_append, str_data_empty, List.append_nil]

theorem str_empty_append (s : String) : "" ++ s = s := by
  apply String.ext
  rw [String.data_append, str_data_empty, List.nil_append]

theorem str_append_assoc (a b c : String) : a ++ b ++ c = a ++ (b ++ c) := by
  apply String.ext
  simp only [String.data_append, List.append_assoc]

/-- The tail rendering of a separator join: each element preceded by the
separator. -/
def underJoin (sep : String) : List String → String
  | [] => ""
  | f :: rest => sep ++ f ++ underJoin sep rest

theorem joinWith_cons_eq (sep : String) :
    ∀ (l : List String) (x : String), joinWith sep (x :: l) = x ++ underJoin sep l := by
  intro l
  induction l with
  | nil => intro x; exact (str_append_empty x).symm
  | cons y rest ih =>
    intro x
    show x ++ sep ++ joinWith sep (y :: rest) = x ++ (sep ++ y ++ underJoin sep rest)
    rw [ih y, str_append_assoc x sep (y ++ underJoin sep rest)]
    rw [str_append_assoc sep y (underJoin sep rest)]

/-- The accumulator update of the root-SN loop, iterated over a list of
fingerprints. -/
def joinAcc (sn : String) (fps : List String) : String :=
  fps.foldl (fun s f => if s = "" then s ++ f else s ++ ("_" ++ f)) sn

theorem joinAcc_of_ne_empty :
    ∀ (fps : List String) (sn : String), sn ≠ "" →
      joinAcc sn fps = sn ++ underJoin "_" fps := by
  intro fps
  induction fps with
  | nil => intro sn _; exact (str_append_empty sn).symm
  | cons f rest ih =>
    intro sn h
    show joinAcc (if sn = "" then sn ++ f else sn ++ ("_" ++ f)) rest = _
    rw [if_neg h, ih _ (str_append_ne_empty _ h), str_append_assoc]
    rw [show underJoin "_" (f :: rest) = "_" ++ f ++ underJoin "_" rest from rfl]

theorem underscore_ne_empty : ("_" : String) ≠ "" := by decide

theorem joinAcc_from_empty (fps : List String) (h : ∀ f ∈ fps, f ≠ "") :
    joinAcc "" fps = joinWith "_" fps ∧ (joinAcc "" fps = "" ↔ fps = []) := by
  cases fps with
  | nil => exact ⟨rfl, by simp [joinAcc]⟩
  | cons f rest =>
    have hf : f ≠ "" := h f (List.mem_cons_self f rest)
    have step : joinAcc "" (f :: rest) = joinAcc f rest := by
      show joinAcc (if ("" : String) = "" then "" ++ f else "" ++ ("_" ++ f)) rest = _
      rw [if_pos rfl, str_empty_append]
    rw [step, joinAcc_of_ne_empty rest f hf, ← joinWith_cons_eq]
    refine ⟨rfl, ?_⟩
    constructor
    · intro hempty
      exact absurd hempty (by rw [joinWith_cons_eq]; exact str_append_ne_empty _ hf)
    · intro hnil
      exact absurd hnil (List.cons_ne_nil f rest)

theorem rootSnFold_eq_joinAcc (parse : String → Option X509Cert)
    (md5hex : String → String) :
    ∀ (pieces : List String) (sn : String),
      rootSnFold parse md5hex pieces sn =
        .ok (joinAcc sn (fragmentFingerprints parse md5hex pieces)) := by
  intro pieces
  induction pieces with
  | nil => intro sn; rfl
  | cons c rest ih =>
    intro sn
    unfold rootSnFold fragmentFingerprints
    cases hp : parse (c ++ certEnd) with
    | none => simp only [hp]; exact ih sn
    | some x =>
      by_cases hoid : x.sigAlgOid.startsWith rsaOidFamily = true
      · simp only [hp, hoid, if_true, cert_sn_from_utf8]
        rw [ih]
        rfl
      · simp only [hp, hoid, if_false]
        exact ih sn

theorem fragmentFingerprints_are_digests (parse : String → Option X509Cert)
    (md5hex : String → String) :
    ∀ (pieces : List String) (f : String),
      f ∈ fragmentFingerprints parse md5hex pieces → ∃ s, f = md5hex s := by
  intro pieces
  induction pieces with
  | nil => intro f hf; cases hf
  | cons c rest ih =>
    intro f hf
    unfold fragmentFingerprints at hf
    cases hp : parse (c ++ certEnd) with
    | none => simp only [hp] at hf; exact ih f hf
    | some x =>
      simp only [hp] at hf
      by_cases hoid : x.sigAlgOid.startsWith rsaOidFamily = true
      · simp only [hoid, if_true] at hf
        rcases List.mem_cons.mp hf with heq | hmem
        · exact ⟨certName x.issuer ++ Nat.repr x.serial, heq⟩
        · exact ih f hmem
      · simp only [hoid, if_false] at hf; exact ih f hf

/-! ## Claim C5 -/

/-- C5: root_cert_sn_from_utf8 splits the bundle on the END CERTIFICATE
delimiter, re-appends the delimiter to each fragment, keeps exactly the
fragments that parse as X.509 certificates whose signature algorithm OID
lies in the RSA family 1.2.840.113549.1.1, fingerprints each survivor, and
joins the results with an underscore; it errors precisely when no fragment
survives.  The hypothesis that the digest function never renders to the
empty string holds of the 32-character md5 hex rendering the source uses.
The two-certificate RSA+EC bundle of the claim is the instance with exactly
one surviving fragment, where the join is that single fingerprint. -/
theorem root_cert_sn_rsa_filter (parse : String → Option X509Cert)
    (md5hex : String → String) (content : String)
    (hmd5 : ∀ s, md5hex s ≠ "") :
    root_cert_sn_from_utf8 parse md5hex content =
      (if fragmentFingerprints parse md5hex (content.splitOn certEnd) = []
       then .error ()
       else .ok (joinWith "_" (fragmentFingerprints parse md5hex (content.splitOn certEnd)))) := by
  have hall : ∀ f ∈ fragmentFingerprints parse md5hex (content.splitOn certEnd), f ≠ "" := by
    intro f hf
    obtain ⟨s, rfl⟩ := fragmentFingerprints_are_digests parse md5hex _ f hf
    exact hmd5 s
  obtain ⟨hjoin, hempty⟩ := joinAcc_from_empty _ hall
  unfold root_cert_sn_from_utf8
  rw [rootSnFold_eq_joinAcc]
  by_cases hfps : fragmentFingerprints parse md5hex (content.splitOn certEnd) = []
  · have : joinAcc "" (fragmentFingerprints parse md5hex (content.splitOn certEnd)) = "" :=
      hempty.mpr hfps
    simp only [this, hfps, if_true]
    rfl
  · have h1 : joinAcc "" (fragmentFingerprints parse md5hex (content.splitOn certEnd)) ≠ "" :=
      fun hh => hfps (hempty.mp hh)
    have h2 : joinWith "_" (fragmentFingerprints parse md5hex (content.splitOn certEnd)) ≠ "" := by
      rw [← hjoin]; exact h1
    simp [hfps, hjoin, h1, h2]

theorem root_cert_sn_rsa_filter_witness :
    (∀ s, (fun _ : String => "d") s ≠ "") ∧
    root_cert_sn_from_utf8
      (fun c => if c = "A" ++ certEnd then some ⟨"CN=r", 1, "1.2.840.113549.1.1.11"⟩
        else if c = "B" ++ certEnd then some ⟨"CN=e", 2, "1.2.840.10045.4.3.2"⟩ else none)
      (fun _ => "d") "x" =
      (if fragmentFingerprints
          (fun c => if c = "A" ++ certEnd then some ⟨"CN=r", 1, "1.2.840.113549.1.1.11"⟩
            else if c = "B" ++ certEnd then some ⟨"CN=e", 2, "1.2.840.10045.4.3.2"⟩ else none)
          (fun _ => "d") ("x".splitOn certEnd) = []
       then .error ()
       else .ok (joinWith "_" (fragmentFingerprints
          (fun c => if c = "A" ++ certEnd then some ⟨"CN=r", 1, "1.2.840.113549.1.1.11"⟩
            else if c = "B" ++ certEnd then some ⟨"CN=e", 2, "1.2.840.10045.4.3.2"⟩ else none)
          (fun _ => "d") ("x".splitOn certEnd)))) :=
  ⟨fun _ => (by decide : ("d" : String) ≠ ""),
    root_cert_sn_rsa_filter _ _ "x" (fun _ => (by decide : ("d" : String) ≠ ""))⟩

/-! ## Claim C4 -/

/-- C4: for every certificate the parser accepts, cert_sn_from_utf8 hashes
the issuer distinguished name — reversed around its comma-space separated
attributes and rejoined with bare commas unless the name already starts
with CN — concatenated with the decimal rendering of the serial number.
md5hex stands for the lowercase-hex rendering of the md5 digest the source
computes; the embedding is a pure function of the certificate bytes, so
recomputing on the same bytes yields the same string. -/
theorem cert_sn_fingerprint_formula (parse : String → Option X509Cert)
    (md5hex : String → String) (content : String) (c : X509Cert)
    (h : parse content = some c) :
    cert_sn_from_utf8 parse md5hex content =
      .ok (md5hex ((if c.issuer.startsWith "CN" then c.issuer
        else String.intercalate "," (c.issuer.splitOn ", ").reverse) ++ Nat.repr c.serial)) := by
  unfold cert_sn_from_utf8
  rw [h]
  rfl

theorem cert_sn_fingerprint_formula_witness :
    (fun _ : String => some (⟨"C=US, CN=r", 7, "1.2.840.113549.1.1.11"⟩ : X509Cert)) "pem" =
      some ⟨"C=US, CN=r", 7, "1.2.840.113549.1.1.11"⟩ ∧
    cert_sn_from_utf8
      (fun _ => some ⟨"C=US, CN=r", 7, "1.2.840.113549.1.1.11"⟩) (fun s => s) "pem" =
      .ok ((fun s => s) ((if ("C=US, CN=r" : String).startsWith "CN" then "C=US, CN=r"
        else String.intercalate "," (("C=US, CN=r" : String).splitOn ", ").reverse) ++ Nat.repr 7)) :=
  ⟨rfl, cert_sn_fingerprint_formula _ _ "pem" ⟨"C=US, CN=r", 7, "1.2.840.113549.1.1.11"⟩ rfl⟩

/-! ## Claim C3 -/

/-- C3: rsa_verify_sha256_pem returns ok false exactly when the key parses,
the signature base64-decodes, and the raw verification yields false (a
structurally valid signature that does not match); it returns ok true
exactly when the raw verification accepts; and it returns an error exactly
when the public key fails to parse, the base64 decoding of the signature
fails, or the verification primitive itself errors (a malformed signature
container) — never collapsing an error into a boolean or a boolean into an
error. -/
theorem rsa_verify_ok_error_distinction {K : Type}
    (parseKey : String → Except Unit K) (b64 : String → Except Unit (List Nat))
    (rawVerify : K → String → List Nat → Except Unit Bool) (pem data sig : String) :
    (∀ b : Bool, rsa_verify_sha256_pem parseKey b64 rawVerify pem data sig = .ok b ↔
      ∃ k bytes, parseKey pem = .ok k ∧ b64 sig = .ok bytes ∧ rawVerify k data bytes = .ok b)
    ∧ (rsa_verify_sha256_pem parseKey b64 rawVerify pem data sig = .error () ↔
      (parseKey pem = .error () ∨
        (∃ k, parseKey pem = .ok k ∧ b64 sig = .error ()) ∨
        (∃ k bytes, parseKey pem = .ok k ∧ b64 sig = .ok bytes ∧
          rawVerify k data bytes = .error ()))) := by
  unfold rsa_verify_sha256_pem
  cases hpk : parseKey pem with
  | error e => cases e; simp [hpk]
  | ok k =>
    cases hb : b64 sig with
    | error e => cases e; simp [hpk, hb]
    | ok bytes =>
      cases hv : rawVerify k data bytes with
      | error e => cases e; simp [hpk, hb, hv]
      | ok b => simp [hpk, hb, hv]

theorem rsa_verify_ok_error_distinction_witness :
    rsa_verify_sha256_pem (K := Unit) (fun _ => .ok ()) (fun _ => .ok [])
      (fun _ _ _ => .ok false) "pk" "msg" "sig" = .ok false :=
  ((rsa_verify_ok_error_distinction (fun _ => .ok ()) (fun _ => .ok [])
    (fun _ _ _ => .ok false) "pk" "msg" "sig").1 false).mpr ⟨(), [], rfl, rfl, rfl⟩

/-! ## Claim C10 -/

/-- C10: retry_async with max_attempts zero and a first invocation that
fails decrements the unsigned attempt counter below zero; the embedding
renders the underflow of attempts -= 1 as the absence of a normal return
(none), so the zero-attempt input lies outside the total interface. -/
theorem retry_async_zero_underflow {E T : Type} (f : Nat → Except E T) (e : E)
    (h : f 0 = .error e) : retry_async 0 f = none := by
  unfold retry_async retryAux
  rw [h]

theorem retry_async_zero_underflow_witness :
    (fun _ : Nat => (Except.error () : Except Unit Unit)) 0 = .error () ∧
    retry_async 0 (fun _ : Nat => (Except.error () : Except Unit Unit)) = none :=
  ⟨rfl, retry_async_zero_underflow _ () rfl⟩

/-! ## Claim C6: the retry schedule -/

theorem backoffNext_backoffDelay (i : Nat) :
    backoffNext (backoffDelay i) = backoffDelay (i + 1) := by
  unfold backoffNext backoffDelay
  rw [pow_succ, ← Nat.mul_assoc]
  generalize 200 * 2 ^ i = a
  omega

theorem sleepSeq_eq_range :
    ∀ (k i : Nat), sleepSeq (backoffDelay i) k = (List.range k).map fun j => backoffDelay (i + j) := by
  intro k
  induction k with
  | zero => intro i; rfl
  | succ k ih =>
    intro i
    show backoffDelay i :: sleepSeq (backoffNext (backoffDelay i)) k = _
    rw [backoffNext_backoffDelay, ih (i + 1), List.range_succ_eq_map]
    simp only [List.map_cons, List.map_map, Nat.add_zero]
    congr 1
    apply List.map_congr_left
    intro j _
    simp only [Function.comp_apply]
    congr 1
    omega

theorem retryAux_all_fail {E T : Type} (f : Nat → Except E T) (e : Nat → E) :
    ∀ (a : Nat), 1 ≤ a → ∀ (i d : Nat), (∀ j, j < a → f (i + j) = .error (e (i + j))) →
      retryAux f a i d = some (.error (e (i + a - 1)), i + a, sleepSeq d (a - 1)) := by
  intro a
  induction a with
  | zero => intro h; omega
  | succ a ih =>
    intro _ i d h
    cases a with
    | zero =>
      have h0 := h 0 (by omega)
      rw [Nat.add_zero] at h0
      unfold retryAux
      rw [h0]
      rfl
    | succ b =>
      have h0 := h 0 (by omega)
      rw [Nat.add_zero] at h0
      have hsh : ∀ j, j < b + 1 → f (i + 1 + j) = .error (e (i + 1 + j)) := by
        intro j hj
        have hx := h (j + 1) (by omega)
        have he : i + (j + 1) = i + 1 + j := by omega
        rw [he] at hx
        exact hx
      unfold retryAux
      rw [h0, ih (by omega) (i + 1) (backoffNext d) hsh]
      show some (Except.error (e (i + 1 + (b + 1) - 1)), i + 1 + (b + 1),
        d :: sleepSeq (backoffNext d) b) = _
      have e1 : i + 1 + (b + 1) - 1 = i + (b + 2) - 1 := by omega
      have e2 : i + 1 + (b + 1) = i + (b + 2) := by omega
      rw [e1, e2]
      rfl

theorem retryAux_succeed {E T : Type} (f : Nat → Except E T) (e : Nat → E) (v : T) :
    ∀ (s a i d : Nat), (∀ j, j < s → f (i + j) = .error (e (i + j))) → f (i + s) = .ok v →
      s < a → retryAux f a i d = some (.ok v, i + s + 1, sleepSeq d s) := by
  intro s
  induction s with
  | zero =>
    intro a i d _ hok _
    rw [Nat.add_zero] at hok
    cases a with
    | zero => unfold retryAux; rw [hok]; rfl
    | succ b =>
      cases b with
      | zero => unfold retryAux; rw [hok]; rfl
      | succ c => unfold retryAux; rw [hok]; rfl
  | succ s ih =>
    intro a i d h hok hs
    cases a with
    | zero => omega
    | succ b =>
      cases b with
      | zero => omega
      | succ c =>
        have h0 := h 0 (by omega)
        rw [Nat.add_zero] at h0
        have hsh : ∀ j, j < s → f (i + 1 + j) = .error (e (i + 1 + j)) := by
          intro j hj
          have hx := h (j + 1) (by omega)
          have he : i + (j + 1) = i + 1 + j := by omega
          rw [he] at hx
          exact hx
        have hok2 : f (i + 1 + s) = .ok v := by
          have he : i + (s + 1) = i + 1 + s := by omega
          rw [he] at hok
          exact hok
        unfold retryAux
        rw [h0, ih (c + 1) (i + 1) (backoffNext d) hsh hok2 (by omega)]
        show some (Except.ok v, i + 1 + s + 1, d :: sleepSeq (backoffNext d) s) = _
        have e2 : i + 1 + s + 1 = i + (s + 1) + 1 := by omega
        rw [e2]
        rfl

/-- C6: for max_attempts at least one, an always-failing operation is
invoked exactly max_attempts times with max_attempts - 1 sleeps following
the doubling-with-5000-cap schedule starting at 200 ms, and the error of
the final attempt is returned; an operation first succeeding on the k-th
attempt (k within the bound) is invoked exactly k times and its value
returned.  The schedule formula instantiates to 200, 400, 800, 1600, 3200,
5000 on its first six positions, and stays 5000 thereafter. -/
theorem retry_async_schedule {E T : Type} (n : Nat) (hn : 1 ≤ n)
    (f : Nat → Except E T) (e : Nat → E) :
    ((∀ j, j < n → f j = .error (e j)) →
      retry_async n f =
        some (.error (e (n - 1)), n, (List.range (n - 1)).map fun j => min (200 * 2 ^ j) 5000))
    ∧ (∀ k v, 1 ≤ k → k ≤ n → (∀ j, j < k - 1 → f j = .error (e j)) → f (k - 1) = .ok v →
      retry_async n f =
        some (.ok v, k, (List.range (k - 1)).map fun j => min (200 * 2 ^ j) 5000))
    ∧ (List.range 6).map (fun j => min (200 * 2 ^ j) 5000) = [200, 400, 800, 1600, 3200, 5000] := by
  have hs : ∀ m, sleepSeq 200 m = (List.range m).map fun j => min (200 * 2 ^ j) 5000 := by
    intro m
    have h0 : (200 : Nat) = backoffDelay 0 := by decide
    conv_lhs => rw [h0]
    rw [sleepSeq_eq_range]
    simp only [Nat.zero_add, backoffDelay]
  refine ⟨?_, ?_, by decide⟩
  · intro hfail
    unfold retry_async
    have hsh : ∀ j, j < n → f (0 + j) = .error (e (0 + j)) := by
      intro j hj
      simpa using hfail j hj
    rw [retryAux_all_fail f e n hn 0 200 hsh, hs]
    simp only [Nat.zero_add]
  · intro k v hk1 hkn hfail hok
    unfold retry_async
    have hsh : ∀ j, j < k - 1 → f (0 + j) = .error (e (0 + j)) := by
      intro j hj
      simpa using hfail j hj
    have hok2 : f (0 + (k - 1)) = .ok v := by simpa using hok
    rw [retryAux_succeed f e v (k - 1) n 0 200 hsh hok2 (by omega), hs]
    simp only [Nat.zero_add]
    have hke : k - 1 + 1 = k := by omega
    rw [hke]

theorem retry_async_schedule_witness :
    1 ≤ 2 ∧
    retry_async 2 (fun _ : Nat => (Except.error () : Except Unit Unit)) =
      some (.error (), 2, (List.range (2 - 1)).map fun j => min (200 * 2 ^ j) 5000) :=
  ⟨by decide,
    (retry_async_schedule 2 (by decide) (fun _ => .error ()) (fun _ => ())).1 (fun _ _ => rfl)⟩

/-! ## Claim C1 -/

/-- C1 (amended): a signing failure, a transport failure, or a response
that fails JSON parsing leaves the table unchanged (with an error result),
and a well-formed response without a data array leaves a previously
populated table unchanged (with a success result, so an ill-shaped body
does not empty the table); but when a data array is present the table is
cleared in place before the entries are processed, so the resulting table —
whether the refresh succeeds or a decryption or key-extraction error aborts
it midway — is exactly the table built from the processed entries over the
empty table, never a function of the previous table. -/
theorem wechat_refresh_replacement
    (decrypt : String → String → String → String → Except Unit String)
    (extract : String → Except Unit String) (parse : String → Option Json)
    (apiV3Key : String) (old : List (String × String)) :
    (∀ transport, refresh decrypt extract parse apiV3Key (.error ()) transport old =
      (.error (), old))
    ∧ (∀ s, refresh decrypt extract parse apiV3Key (.ok s) (.error ()) old = (.error (), old))
    ∧ (∀ s t, parse t = none →
        refresh decrypt extract parse apiV3Key (.ok s) (.ok t) old = (.error (), old))
    ∧ (∀ s t v, parse t = some v → (v.get "data").bind Json.asArr = none →
        refresh decrypt extract parse apiV3Key (.ok s) (.ok t) old = (.ok (), old))
    ∧ (∀ s t v arr, parse t = some v → (v.get "data").bind Json.asArr = some arr →
        refresh decrypt extract parse apiV3Key (.ok s) (.ok t) old =
          processCerts decrypt extract apiV3Key [] arr) := by
  refine ⟨fun transport => rfl, fun s => rfl, ?_, ?_, ?_⟩
  · intro s t hp
    simp [refresh, hp]
  · intro s t v hp hd
    simp [refresh, hp, hd]
  · intro s t v arr hp hd
    simp [refresh, hp, hd]

theorem wechat_refresh_replacement_witness :
    (fun _ : String => (none : Option Json)) "body" = none ∧
    refresh (fun _ _ _ _ => .error ()) (fun _ => .ok "") (fun _ => none) "key"
      (.ok "sig") (.ok "body") [("s1", "k1")] = (.error (), [("s1", "k1")]) :=
  ⟨rfl,
    (wechat_refresh_replacement (fun _ _ _ _ => .error ()) (fun _ => .ok "")
      (fun _ => none) "key" [("s1", "k1")]).2.2.1 "sig" "body" rfl⟩

/-- C1 counterexample: a refresh whose response carries a data array with
one certificate entry whose decryption fails returns an error, yet the
previously populated table has been cleared: the old serial is no longer
retrievable.  This falsifies the claim that any refresh failure leaves the
previously stored table unchanged. -/
theorem wechat_refresh_decrypt_failure_clears_table :
    refresh (fun _ _ _ _ => .error ()) (fun _ => .ok "")
      (fun _ => some (Json.obj [("data", Json.arr [Json.obj
        [("serial_no", Json.str "s2"), ("encrypt_certificate", Json.obj [])]])]))
      "key" (.ok "sig") (.ok "body") [("s1", "k1")] = (.error (), []) ∧
    get_by_serial [("s1", "k1")] "s1" = some "k1" ∧
    get_by_serial ([] : List (String × String)) "s1" = none :=
  ⟨rfl, rfl, rfl⟩

/-! ## Claim C2 -/

theorem vdAfterKey_not_verified
    (verify : String → String → String → Except Unit Bool)
    (decrypt : String → String → String → String → Except Unit String)
    (parse : String → Option Json) (apiV3Key msg signature body p : String)
    (h : verify p msg signature ≠ .ok true) :
    (vdAfterKey verify decrypt parse apiV3Key msg signature body p).2 = false ∧
    ∃ er, (vdAfterKey verify decrypt parse apiV3Key msg signature body p).1 = .error er := by
  unfold vdAfterKey
  by_cases hp : p = ""
  · rw [if_pos hp]
    exact ⟨rfl, .other, rfl⟩
  · rw [if_neg hp]
    cases hv : verify p msg signature with
    | error er => exact ⟨rfl, .crypto, rfl⟩
    | ok b =>
      cases b with
      | false => exact ⟨rfl, .other, rfl⟩
      | true => exact absurd hv h

/-- C2: whenever the RSA verification over the inbound canonical string
(timestamp, nonce, raw body, newline-terminated) either errors or rejects
the signature — for any public key the certificate store could supply —
verify_and_decrypt returns an error and the symmetric decryption of the
resource is never invoked (the Bool component of the embedding records the
one aes_gcm_decrypt call site for the resource). -/
theorem wechat_notify_verify_before_decrypt
    (getBySerial : String → Option String)
    (refreshRes : Except Unit (String → Option String))
    (verify : String → String → String → Except Unit Bool)
    (decrypt : String → String → String → String → Except Unit String)
    (parse : String → Option Json) (apiV3Key : String)
    (headers : List (String × String)) (body : String)
    (hver : ∀ pk, verify pk
      (wechatNotifyMsg ((List.lookup "wechatpay-timestamp" headers).getD "")
        ((List.lookup "wechatpay-nonce" headers).getD "") body)
      ((List.lookup "wechatpay-signature" headers).getD "") ≠ .ok true) :
    (verify_and_decrypt getBySerial refreshRes verify decrypt parse apiV3Key headers body).2 =
      false ∧
    ∃ er, (verify_and_decrypt getBySerial refreshRes verify decrypt parse apiV3Key
      headers body).1 = .error er := by
  unfold verify_and_decrypt
  cases hg : getBySerial ((List.lookup "wechatpay-serial" headers).getD "") with
  | some p =>
    simp only [hg]
    exact vdAfterKey_not_verified verify decrypt parse apiV3Key _ _ body p (hver p)
  | none =>
    simp only [hg]
    cases refreshRes with
    | error er => exact ⟨rfl, .crypto, rfl⟩
    | ok afterRefresh =>
      cases ha : afterRefresh ((List.lookup "wechatpay-serial" headers).getD "") with
      | none => simp [ha]
      | some p =>
        simp only [ha]
        exact vdAfterKey_not_verified verify decrypt parse apiV3Key _ _ body p (hver p)

theorem wechat_notify_verify_before_decrypt_witness :
    (Except.ok false : Except Unit Bool) ≠ .ok true ∧
    (verify_and_decrypt (fun _ => some "pk") (.ok fun _ => none)
      (fun _ _ _ => .ok false) (fun _ _ _ _ => .ok "") (fun _ => none) "key" [] "").2 = false ∧
    ∃ er, (verify_and_decrypt (fun _ => some "pk") (.ok fun _ => none)
      (fun _ _ _ => .ok false) (fun _ _ _ _ => .ok "") (fun _ => none) "key" [] "").1 =
        .error er :=
  ⟨fun h => Bool.noConfusion (Except.ok.inj h),
    wechat_notify_verify_before_decrypt (fun _ => some "pk") (.ok fun _ => none)
      (fun _ _ _ => .ok false) (fun _ _ _ _ => .ok "") (fun _ => none) "key" [] ""
      (fun _ h => Bool.noConfusion (Except.ok.inj h))⟩

/-! ## Claim C7 -/

/-- C7 (amended): under the 12-byte GCM nonce the call returns an error
exactly when the key is not 32 bytes, or the ciphertext fails base64
decoding, or the AEAD rejects, or the decrypted plaintext fails the UTF-8
conversion; every successful return carries exactly the AEAD plaintext that
passed the UTF-8 check (never corrupted data); and with a correct key but a
nonce of any other length the call panics (none) instead of returning.  All
error returns are one kind, as in the source where each failure becomes an
anyhow error. -/
theorem aes_gcm_decrypt_failure_characterization
    (b64 : String → Option (List Nat))
    (aead : List Nat → List Nat → List Nat → List Nat → Option (List Nat))
    (utf8Ok : List Nat → Bool) (key aad nonce : List Nat) (ct : String) :
    (nonce.length = 12 →
      ((aes_gcm_decrypt b64 aead utf8Ok key aad nonce ct = some (.error ()) ↔
        (key.length ≠ 32 ∨ (key.length = 32 ∧ b64 ct = none) ∨
          (key.length = 32 ∧ ∃ bytes, b64 ct = some bytes ∧ aead key nonce aad bytes = none) ∨
          (key.length = 32 ∧ ∃ bytes plain, b64 ct = some bytes ∧
            aead key nonce aad bytes = some plain ∧ utf8Ok plain = false)))
      ∧ (∀ plain, aes_gcm_decrypt b64 aead utf8Ok key aad nonce ct = some (.ok plain) ↔
          (key.length = 32 ∧ ∃ bytes, b64 ct = some bytes ∧
            aead key nonce aad bytes = some plain ∧ utf8Ok plain = true))))
    ∧ (key.length = 32 → nonce.length ≠ 12 →
        aes_gcm_decrypt b64 aead utf8Ok key aad nonce ct = none) := by
  unfold aes_gcm_decrypt
  constructor
  · intro hn
    by_cases hk : key.length = 32
    · have hk2 : ¬ key.length ≠ 32 := by omega
      have hn2 : ¬ nonce.length ≠ 12 := by omega
      rw [if_neg hk2, if_neg hn2]
      cases hb : b64 ct with
      | none => simp [hk, hb]
      | some bytes =>
        cases ha : aead key nonce aad bytes with
        | none => simp [hk, hb, ha]
        | some plain =>
          cases hu : utf8Ok plain with
          | false => simp [hk, hb, ha, hu]
          | true => simp [hk, hb, ha, hu]
    · rw [if_pos hk]
      simp [hk]
  · intro hk hn
    have hk2 : ¬ key.length ≠ 32 := by omega
    rw [if_neg hk2, if_pos hn]

theorem aes_gcm_decrypt_failure_characterization_witness :
    (List.replicate 32 0).length = 32 ∧ (List.replicate 11 0).length ≠ 12 ∧
    aes_gcm_decrypt (fun _ => some []) (fun _ _ _ _ => some []) (fun _ => true)
      (List.replicate 32 0) [] (List.replicate 11 0) "" = none :=
  ⟨by decide, by decide,
    (aes_gcm_decrypt_failure_characterization (fun _ => some []) (fun _ _ _ _ => some [])
      (fun _ => true) (List.replicate 32 0) [] (List.replicate 11 0) "").2
      (by decide) (by decide)⟩

/-- C7 counterexample: with a 32-byte key, a ciphertext that base64-decodes
and an AEAD that accepts — producing the single byte 255, which is not
valid UTF-8, here modelled by a conversion check that rejects it —
aes_gcm_decrypt still returns an error, so the error cases are not exactly
the three listed by the claim: the UTF-8 conversion of the plaintext is a
fourth failure source. -/
theorem aes_gcm_decrypt_utf8_error_input :
    aes_gcm_decrypt (fun _ => some []) (fun _ _ _ _ => some [255]) (fun l => l.isEmpty)
      (List.replicate 32 0) [] (List.replicate 12 0) "" = some (.error ()) ∧
    (List.replicate 32 0).length = 32 ∧
    (fun _ : String => some ([] : List Nat)) "" = some [] ∧
    (fun _ _ _ _ : List Nat => some [255]) (List.replicate 32 0) (List.replicate 12 0)
      ([] : List Nat) ([] : List Nat) = some [255] :=
  ⟨rfl, by decide, rfl, rfl⟩

/-! ## Claim C9 -/

/-- Number of newline characters in a string. -/
def countNl (s : String) : Nat := s.data.count '\n'

theorem countNl_append (a b : String) : countNl (a ++ b) = countNl a + countNl b := by
  unfold countNl
  rw [String.data_append, List.count_append]

theorem countNl_newline : countNl "\n" = 1 := by decide

/-- C9: the outbound canonical string is exactly the five newline-terminated
segments method, path-with-query, timestamp, nonce, body (the body segment
empty for GET); the path segment is the request path plus a question mark
and the raw query when one is present, and just the path otherwise (the
parsed URL never contributes host or scheme to it); the inbound
verification string is exactly the three newline-terminated segments
timestamp, nonce, raw body; and when the segment inputs contain no newline
of their own the two shapes have five respectively three newlines and so
can never coincide. -/
theorem canonical_string_shapes (method path : String) (query : Option String)
    (q ts nonce bodyJson ts₂ nonce₂ body₂ : String) :
    (outboundSignStr method path query ts nonce bodyJson =
      method ++ "\n" ++ pathWithQuery path query ++ "\n" ++ ts ++ "\n" ++ nonce ++ "\n"
        ++ (if method = "GET" then "" else bodyJson) ++ "\n")
    ∧ pathWithQuery path (some q) = path ++ "?" ++ q
    ∧ pathWithQuery path none = path
    ∧ wechatNotifyMsg ts₂ nonce₂ body₂ = ts₂ ++ "\n" ++ nonce₂ ++ "\n" ++ body₂ ++ "\n"
    ∧ (countNl method = 0 → countNl (pathWithQuery path query) = 0 → countNl ts = 0 →
        countNl nonce = 0 → countNl (outboundBodyStr method bodyJson) = 0 →
        countNl (outboundSignStr method path query ts nonce bodyJson) = 5)
    ∧ (countNl ts₂ = 0 → countNl nonce₂ = 0 → countNl body₂ = 0 →
        countNl (wechatNotifyMsg ts₂ nonce₂ body₂) = 3)
    ∧ (countNl method = 0 → countNl (pathWithQuery path query) = 0 → countNl ts = 0 →
        countNl nonce = 0 → countNl (outboundBodyStr method bodyJson) = 0 →
        countNl ts₂ = 0 → countNl nonce₂ = 0 → countNl body₂ = 0 →
        outboundSignStr method path query ts nonce bodyJson ≠
          wechatNotifyMsg ts₂ nonce₂ body₂) := by
  refine ⟨rfl, rfl, rfl, rfl, ?_, ?_, ?_⟩
  · intro hm hp hts hn hb
    simp only [outboundSignStr, countNl_append, countNl_newline, hm, hp, hts, hn, hb]
  · intro ht2 hn2 hb2
    simp only [wechatNotifyMsg, countNl_append, countNl_newline, ht2, hn2, hb2]
  · intro hm hp hts hn hb ht2 hn2 hb2 heq
    have hc := congrArg countNl heq
    simp only [outboundSignStr, wechatNotifyMsg, countNl_append, countNl_newline,
      hm, hp, hts, hn, hb, ht2, hn2, hb2] at hc
    omega

theorem canonical_string_shapes_witness :
    countNl "GET" = 0 ∧ countNl (pathWithQuery "/v3/certificates" none) = 0 ∧
    countNl "1" = 0 ∧ countNl "n" = 0 ∧ countNl (outboundBodyStr "GET" "b") = 0 ∧
    countNl "1" = 0 ∧ countNl "n" = 0 ∧ countNl "bb" = 0 ∧
    outboundSignStr "GET" "/v3/certificates" none "1" "n" "b" ≠ wechatNotifyMsg "1" "n" "bb" :=
  ⟨by decide, by decide, by decide, by decide, by decide, by decide, by decide, by decide,
    (canonical_string_shapes "GET" "/v3/certificates" none "q" "1" "n" "b" "1" "n"
      "bb").2.2.2.2.2.2 (by decide) (by decide) (by decide) (by decide) (by decide)
      (by decide) (by decide) (by decide)⟩

/-! ## Claim C8 -/

theorem sorted_perm_eq_of_nodup_keys :
    ∀ {l₁ l₂ : List (String × String)}, l₁.Perm l₂ → l₁.Sorted pairKeyLe →
      l₂.Sorted pairKeyLe → (l₁.map Prod.fst).Nodup → l₁ = l₂ := by
  intro l₁
  induction l₁ with
  | nil =>
    intro l₂ hperm _ _ _
    exact (List.Perm.nil_eq hperm).symm ▸ rfl
  | cons a t₁ ih =>
    intro l₂ hperm hs₁ hs₂ hnd
    simp only [List.map_cons, List.nodup_cons] at hnd
    obtain ⟨hna, hndt⟩ := hnd
    cases l₂ with
    | nil =>
      have := hperm.length_eq
      simp at this
    | cons b t₂ =>
      have hab : a = b := by
        have hamem : a ∈ b :: t₂ := hperm.subset (List.mem_cons_self a t₁)
        have hbmem : b ∈ a :: t₁ := hperm.symm.subset (List.mem_cons_self b t₂)
        rcases List.mem_cons.mp hamem with h1 | h1
        · exact h1
        · rcases List.mem_cons.mp hbmem with h2 | h2
          · exact h2.symm
          · have hle1 : pairKeyLe a b := (List.sorted_cons.mp hs₁).1 b h2
            have hle2 : pairKeyLe b a := (List.sorted_cons.mp hs₂).1 a h1
            have hkey : a.1 = b.1 := le_antisymm hle1 hle2
            exfalso
            have hmem : b.1 ∈ t₁.map Prod.fst := List.mem_map_of_mem Prod.fst h2
            rw [← hkey] at hmem
            exact hna hmem
      subst hab
      have hperm₂ : t₁.Perm t₂ := hperm.cons_inv
      rw [ih hperm₂ (List.sorted_cons.mp hs₁).2 (List.sorted_cons.mp hs₂).2 hndt]

/-- C8: the pre-sign canonical string of verify_notify is the ampersand
join of key=value renderings (values untouched, so no percent-encoding) of
a list that is a permutation of exactly the parameters other than sign and
sign_type, sorted by the byte-wise lexicographic key order; the signature
is verified against exactly this string: success implies the verifier
accepted it, a false verdict on it yields the invalid-signature error, an
error verdict the crypto error; and over a map (distinct keys) the string
is independent of the iteration order of the parameters. -/
theorem alipay_presign_canonical (rsaVerify : String → String → String → Except Unit Bool)
    (pubkey : String) (params : List (String × String)) :
    (∃ l : List (String × String), l.Perm (alipayFilter params) ∧ l.Sorted pairKeyLe ∧
      presignContent params = joinWith "&" (l.map fun p => p.1 ++ "=" ++ p.2))
    ∧ (∀ p, p ∈ alipayFilter params ↔ p ∈ params ∧ p.1 ≠ "sign" ∧ p.1 ≠ "sign_type")
    ∧ (∀ sign, List.lookup "sign" params = some sign →
        ((∃ d, verify_notify rsaVerify pubkey params = .ok d) →
          rsaVerify pubkey (presignContent params) sign = .ok true)
        ∧ (rsaVerify pubkey (presignContent params) sign = .ok false →
          verify_notify rsaVerify pubkey params = .error .other)
        ∧ (rsaVerify pubkey (presignContent params) sign = .error () →
          verify_notify rsaVerify pubkey params = .error .crypto))
    ∧ (∀ params₂, params₂.Perm params → (params.map Prod.fst).Nodup →
        presignContent params₂ = presignContent params) := by
  refine ⟨⟨List.insertionSort pairKeyLe (alipayFilter params),
    List.perm_insertionSort pairKeyLe (alipayFilter params),
    List.sorted_insertionSort pairKeyLe (alipayFilter params), rfl⟩, ?_, ?_, ?_⟩
  · intro p
    simp [alipayFilter, List.mem_filter, bne_iff_ne, and_assoc]
  · intro sign hsign
    cases hv : rsaVerify pubkey (presignContent params) sign with
    | error er =>
      cases er
      refine ⟨?_, ?_, ?_⟩
      · rintro ⟨d, hd⟩
        simp [verify_notify, hsign, hv] at hd
      · intro h
        exact Except.noConfusion h
      · intro _
        simp [verify_notify, hsign, hv]
    | ok b =>
      cases b with
      | true =>
        refine ⟨fun _ => rfl, ?_, ?_⟩
        · intro h
          exact Bool.noConfusion (Except.ok.inj h)
        · intro h
          exact Except.noConfusion h
      | false =>
        refine ⟨?_, fun _ => ?_, ?_⟩
        · rintro ⟨d, hd⟩
          simp [verify_notify, hsign, hv] at hd
        · simp [verify_notify, hsign, hv]
        · intro h
          exact Except.noConfusion h
  · intro params₂ hperm hnd
    have hfp : (alipayFilter params₂).Perm (alipayFilter params) := hperm.filter _
    have h1 : ((alipayFilter params).map Prod.fst).Nodup := by
      apply List.Nodup.sublist ?_ hnd
      exact (List.filter_sublist params).map Prod.fst
    have h2 : ((alipayFilter params₂).map Prod.fst).Nodup :=
      ((hfp.map Prod.fst).nodup_iff).mpr h1
    have h3 : ((List.insertionSort pairKeyLe (alipayFilter params₂)).map Prod.fst).Nodup :=
      (((List.perm_insertionSort pairKeyLe (alipayFilter params₂)).map Prod.fst).nodup_iff).mpr h2
    have hsorteq :
        List.insertionSort pairKeyLe (alipayFilter params₂) =
          List.insertionSort pairKeyLe (alipayFilter params) :=
      sorted_perm_eq_of_nodup_keys
        ((List.perm_insertionSort pairKeyLe (alipayFilter params₂)).trans
          (hfp.trans (List.perm_insertionSort pairKeyLe (alipayFilter params)).symm))
        (List.sorted_insertionSort pairKeyLe (alipayFilter params₂))
        (List.sorted_insertionSort pairKeyLe (alipayFilter params)) h3
    unfold presignContent
    rw [hsorteq]

theorem alipay_presign_canonical_witness :
    [("sign", "s"), ("b", "2"), ("a", "1")].Perm [("b", "2"), ("sign", "s"), ("a", "1")] ∧
    (([("b", "2"), ("sign", "s"), ("a", "1")].map Prod.fst).Nodup) ∧
    presignContent [("sign", "s"), ("b", "2"), ("a", "1")] =
      presignContent [("b", "2"), ("sign", "s"), ("a", "1")] :=
  ⟨by decide, by decide,
    (alipay_presign_canonical (fun _ _ _ => .ok true) "pk"
      [("b", "2"), ("sign", "s"), ("a", "1")]).2.2.2
      [("sign", "s"), ("b", "2"), ("a", "1")] (by decide) (by decide)⟩

end RustPay
